import Mathlib

/-!
Shallow embedding of the AdventOfCode24 repository (Rust) in Lean 4,
covering the grid/graph utility layer (`Coordinate`, `Direction`,
`FullDirection`, `SizedGrid`, `UnsizedGrid`, `GridSlice`, `Graph`) and
the day-1 solver (`parse_input`, `part1`, `part2`, `run`).

Machine integers `i32` are modelled as `Int` and `usize`/`u32` as `Nat`;
none of the verified properties depends on wrap-around behaviour.
Fallible operations (Rust code that can panic through `unwrap`,
out-of-bounds indexing or a failed `assert!`) return `Res α`, where
`Res.panicked` marks a panic of the Rust program.
-/

/-- Result of running a piece of Rust code that may panic:
`Res.panicked` models a panic (failed `unwrap`, out-of-bounds index,
failed assertion), `Res.value a` a normal return of `a`. -/
inductive Res (α : Type _) where
  | panicked : Res α
  | value : α → Res α
  deriving DecidableEq

namespace Res

/-- Sequencing of two fallible computations: a panic aborts everything after it. -/
def bind {α β : Type _} : Res α → (α → Res β) → Res β
  | panicked, _ => panicked
  | value a, f => f a

end Res

/-- Rust `Coordinate` from `src/utils/coordinate_system.rs`: a pair of `i32`
fields `i` (row) and `j` (column), modelled with `Int`. -/
structure Coordinate where
  i : Int
  j : Int
  deriving DecidableEq

namespace Coordinate

/-- Rust `Coordinate::new`. -/
def new (x y : Int) : Coordinate := ⟨x, y⟩

/-- Rust `Coordinate::manhattan_distance`. -/
def manhattan_distance (c : Coordinate) : Int := c.i.natAbs + c.j.natAbs

/-- Rust `Coordinate::transpose`. -/
def transpose (c : Coordinate) : Coordinate := ⟨c.j, c.i⟩

/-- Rust `impl Add for Coordinate`: componentwise addition. -/
def addCoord (c other : Coordinate) : Coordinate := ⟨c.i + other.i, c.j + other.j⟩

end Coordinate

/-- Rust `Direction` from `src/utils/coordinate_system.rs` (module `direction`). -/
inductive Direction where
  | North
  | East
  | South
  | West
  | Current
  deriving DecidableEq

namespace Direction

/-- Rust `Direction::offset`: the fixed `(di, dj)` offset of each cardinal direction. -/
def offset : Direction → Int × Int
  | North => (-1, 0)
  | East => (0, 1)
  | South => (1, 0)
  | West => (0, -1)
  | Current => (0, 0)

/-- Rust `Direction::direction_list`. -/
def direction_list : List Direction := [North, East, South, West]

end Direction

/-- Rust `FullDirection` from `src/utils/coordinate_system.rs` (module `direction`). -/
inductive FullDirection where
  | North
  | NorthEast
  | East
  | SouthEast
  | South
  | SouthWest
  | West
  | NorthWest
  | Current
  deriving DecidableEq

namespace FullDirection

/-- Rust `FullDirection::offset`: cardinal cases delegate to `Direction::offset`,
diagonal cases are hard-coded pairs. -/
def offset : FullDirection → Int × Int
  | North => Direction.North.offset
  | NorthEast => (-1, 1)
  | East => Direction.East.offset
  | SouthEast => (1, 1)
  | South => Direction.South.offset
  | SouthWest => (1, -1)
  | West => Direction.West.offset
  | NorthWest => (-1, -1)
  | Current => Direction.Current.offset

end FullDirection

namespace Coordinate

/-- Rust `impl Add<Direction> for Coordinate`: add the direction's offset componentwise. -/
def addDir (c : Coordinate) (d : Direction) : Coordinate :=
  ⟨c.i + d.offset.1, c.j + d.offset.2⟩

/-- Rust `impl Add<FullDirection> for Coordinate`. -/
def addFullDir (c : Coordinate) (d : FullDirection) : Coordinate :=
  ⟨c.i + d.offset.1, c.j + d.offset.2⟩

end Coordinate

/-- Rust `UnsizedGrid` from `src/utils/grid/unsized_grid.rs`: a boxed matrix of
rows, each row a boxed slice.  Rows are NOT forced to share one length. -/
structure UnsizedGrid (α : Type _) where
  matrix : List (List α)
  deriving DecidableEq

namespace UnsizedGrid

/-- Rust `UnsizedGrid::new`: wraps the rows, asserting that there is at least one
row and that row 0 is non-empty (`assert!(grid.len() > 0)`,
`assert!(grid[0].len() > 0)`); a failed assertion is a panic. -/
def new {α : Type _} (grid : List (List α)) : Res (UnsizedGrid α) :=
  match grid with
  | [] => Res.panicked
  | row0 :: rest => if row0.length > 0 then Res.value ⟨row0 :: rest⟩ else Res.panicked

/-- Rust `UnsizedGrid::num_rows`. -/
def num_rows {α : Type _} (g : UnsizedGrid α) : Nat := g.matrix.length

/-- Rust `UnsizedGrid::num_cols` is `self.matrix[0].len()`.  The indexing
`matrix[0]` is total here via `headD`; every grid built by the public
constructors has at least one row, and all theorems below stay inside
that constructor invariant. -/
def num_cols {α : Type _} (g : UnsizedGrid α) : Nat := (g.matrix.headD []).length

/-- Rust `UnsizedGrid::is_valid_coordinate`: `0 <= i < num_rows` and `0 <= j < num_cols`. -/
def is_valid_coordinate {α : Type _} (g : UnsizedGrid α) (c : Coordinate) : Bool :=
  0 ≤ c.i && 0 ≤ c.j && c.i < (g.num_rows : Int) && c.j < (g.num_cols : Int)

/-- Rust `UnsizedGrid::get`: after the validity check the code indexes
`matrix[i][j]` directly; on a ragged grid that row indexing can still be
out of bounds, which is a panic. -/
def get {α : Type _} (g : UnsizedGrid α) (c : Coordinate) : Res (Option α) :=
  if g.is_valid_coordinate c then
    match (g.matrix.get? c.i.toNat).bind (fun row => row.get? c.j.toNat) with
    | some v => Res.value (some v)
    | none => Res.panicked
  else
    Res.value none

/-- Rust `Grid::last_coordinate` (default method of the `Grid` trait in
`src/utils/grid/mod.rs`) instantiated at `UnsizedGrid`:
`((num_rows - 1) as i32, (num_cols - 1) as i32)` with `usize` subtraction;
all uses below keep `num_rows, num_cols ≥ 1`, where `Nat` subtraction
agrees with Rust. -/
def last_coordinate {α : Type _} (g : UnsizedGrid α) : Coordinate :=
  ⟨((g.num_rows - 1 : Nat) : Int), ((g.num_cols - 1 : Nat) : Int)⟩

/-- A grid is rectangular when every row has the length of row 0
(`num_cols`).  The Rust constructors never check this. -/
def isRect {α : Type _} (g : UnsizedGrid α) : Prop :=
  ∀ row ∈ g.matrix, row.length = g.num_cols

end UnsizedGrid

/-- Rust `SizedGrid<T, ROW, COL>` from `src/utils/grid/sized_grid.rs`: a
`[[T; COL]; ROW]` matrix, modelled as a list of lists with its const-generic
shape carried as propositional fields. -/
structure SizedGrid (α : Type _) (R C : Nat) where
  matrix : List (List α)
  hrows : matrix.length = R
  hcols : ∀ row ∈ matrix, row.length = C

namespace SizedGrid

/-- Rust `SizedGrid::num_rows` returns the const generic `ROW`. -/
def num_rows {α : Type _} {R C : Nat} (_ : SizedGrid α R C) : Nat := R

/-- Rust `SizedGrid::num_cols` returns the const generic `COL`. -/
def num_cols {α : Type _} {R C : Nat} (_ : SizedGrid α R C) : Nat := C

/-- Rust `SizedGrid::is_valid_coordinate`: `0 <= i < ROW` and `0 <= j < COL`. -/
def is_valid_coordinate {α : Type _} {R C : Nat} (_ : SizedGrid α R C) (c : Coordinate) : Bool :=
  0 ≤ c.i && 0 ≤ c.j && c.i < (R : Int) && c.j < (C : Int)

/-- Rust `SizedGrid::get`: validity check, then direct `matrix[i][j]` indexing
(an out-of-bounds index would be a panic). -/
def get {α : Type _} {R C : Nat} (g : SizedGrid α R C) (c : Coordinate) : Res (Option α) :=
  if g.is_valid_coordinate c then
    match (g.matrix.get? c.i.toNat).bind (fun row => row.get? c.j.toNat) with
    | some v => Res.value (some v)
    | none => Res.panicked
  else
    Res.value none

/-- Rust `Grid::last_coordinate` instantiated at `SizedGrid`. -/
def last_coordinate {α : Type _} {R C : Nat} (_ : SizedGrid α R C) : Coordinate :=
  ⟨((R - 1 : Nat) : Int), ((C - 1 : Nat) : Int)⟩

end SizedGrid

/-- Model of `std::ops::Range<usize>` as used by `GridSlice`. -/
structure RangeN where
  start : Nat
  stop : Nat
  deriving DecidableEq

/-- Rust `Range::contains`. -/
def RangeN.containsN (r : RangeN) (n : Nat) : Bool :=
  r.start ≤ n && n < r.stop

/-- Rust `GridSlice` from `src/utils/grid/grid_slice.rs`.  The underlying grid
(generic `G: Grid<T>` in Rust) is represented by its row family: both
`SizedGrid` and `UnsizedGrid` implement `Grid::get_row` as `&matrix[row]`,
so the slice sees the grid only as a list of rows. -/
structure GridSlice (α : Type _) where
  grid : List (List α)
  row : RangeN
  col : RangeN
  deriving DecidableEq

namespace GridSlice

/-- Rust `GridSlice::is_valid_coordinate`: both components non-negative and
inside the respective range. -/
def is_valid_coordinate {α : Type _} (gs : GridSlice α) (c : Coordinate) : Bool :=
  0 ≤ c.i && 0 ≤ c.j && gs.row.containsN c.i.toNat && gs.col.containsN c.j.toNat

/-- The underlying grid's `get` as seen through the slice's row family
(element at row `i`, column `j`). -/
def gridGet {α : Type _} (gs : GridSlice α) (c : Coordinate) : Option α :=
  if 0 ≤ c.i ∧ 0 ≤ c.j then
    (gs.grid.get? c.i.toNat).bind (fun row => row.get? c.j.toNat)
  else none

/-- Rust `GridSlice::row_as_slice`: `&self.grid.get_row(row)[self.col.clone()]`.
`get_row` panics when `row` is out of bounds and the range slicing panics
when `col.start > col.stop` or `col.stop > row.len()`. -/
def row_as_slice {α : Type _} (gs : GridSlice α) (r : Nat) : Res (List α) :=
  match gs.grid.get? r with
  | none => Res.panicked
  | some row =>
    if gs.col.start ≤ gs.col.stop && gs.col.stop ≤ row.length then
      Res.value ((row.take gs.col.stop).drop gs.col.start)
    else Res.panicked

end GridSlice

/-- The full list of items yielded by a `RowIter` (from
`src/utils/grid/mod.rs`) created as `RowIter::new(row_item, row, col)`:
while `col < row_item.len()` it yields `(Coordinate::new(row, col),
row_item[col])` and increments `col`. -/
def rowIterFrom {α : Type _} (row_item : List α) (row : Nat) (col : Nat) :
    List (Coordinate × α) :=
  if h : col < row_item.length then
    (Coordinate.new row col, row_item.get ⟨col, h⟩) :: rowIterFrom row_item row (col + 1)
  else []
termination_by row_item.length - col
decreasing_by omega

/-- The rows yielded by a `GridViewIter` (from
`src/utils/grid/grid_slice.rs`) starting at row cursor `r`: while
`self.grid_view.row.contains(&r)` it yields
`RowIter::new(row_as_slice(r), r, self.col)` where `self.col` was set once
to `grid_view.col.start`, then increments `r`. -/
def gridViewIterAux {α : Type _} (gs : GridSlice α) (r : Nat) :
    Res (List (List (Coordinate × α))) :=
  if gs.row.containsN r then
    (gs.row_as_slice r).bind fun slice =>
      (gridViewIterAux gs (r + 1)).bind fun rest =>
        Res.value (rowIterFrom slice r gs.col.start :: rest)
  else Res.value []
termination_by gs.row.stop - r
decreasing_by
  simp only [RangeN.containsN, Bool.and_eq_true, decide_eq_true_eq] at *
  omega

/-- Rust `GridSlice::iter`: the per-row item lists produced by iterating the
returned `GridViewIter` and each of its `RowIter`s to exhaustion. -/
def GridSlice.iterList {α : Type _} (gs : GridSlice α) :
    Res (List (List (Coordinate × α))) :=
  gridViewIterAux gs gs.row.start

/-- Rust `NodePtr` from `src/utils/graph.rs`: a transparent `usize` index. -/
structure NodePtr where
  idx : Nat
  deriving DecidableEq

/-- Rust `EdgePtr` from `src/utils/graph.rs`: a transparent `usize` index. -/
structure EdgePtr where
  idx : Nat
  deriving DecidableEq

/-- Rust `Node<N>` from `src/utils/graph.rs`. -/
structure Node (N : Type _) where
  data : N
  node_index : NodePtr
  first_edge : Option EdgePtr
  deriving DecidableEq

/-- Rust `Edge<E>` from `src/utils/graph.rs`.  The source field `to` is a
reserved word in Lean and is spelled `toPtr` here. -/
structure Edge (E : Type _) where
  data : E
  toPtr : NodePtr
  next_edge : Option EdgePtr
  deriving DecidableEq

/-- Rust `Relationship<E>` from `src/utils/graph.rs`. -/
inductive Relationship (E : Type _) where
  | BiDirectional (a_to_b b_to_a : E)
  | AToB (e : E)
  | BToA (e : E)
  deriving DecidableEq

/-- Rust `Graph<N, E>` from `src/utils/graph.rs`: arena vectors of nodes and edges. -/
structure Graph (N E : Type _) where
  nodes : List (Node N)
  edges : List (Edge E)
  deriving DecidableEq

namespace Graph

/-- Rust `Graph::new`. -/
def new {N E : Type _} : Graph N E := ⟨[], []⟩

/-- Rust `Graph::len`: the number of nodes. -/
def len {N E : Type _} (g : Graph N E) : Nat := g.nodes.length

/-- Rust `Graph::get`: `&self.nodes[node_index.idx].data`, a panic when the
index is out of bounds. -/
def get {N E : Type _} (g : Graph N E) (node_index : NodePtr) : Res N :=
  match g.nodes.get? node_index.idx with
  | some nd => Res.value nd.data
  | none => Res.panicked

/-- Rust `Graph::get_mut` reads (and hands out for mutation) exactly the same
slot as `get`, with the same out-of-bounds panic. -/
def get_mut {N E : Type _} (g : Graph N E) (node_index : NodePtr) : Res N :=
  match g.nodes.get? node_index.idx with
  | some nd => Res.value nd.data
  | none => Res.panicked

/-- Rust `Graph::find_node_index`: first node whose data satisfies the predicate,
returning its stored `node_index`. -/
def find_node_index {N E : Type _} (g : Graph N E) (find_fn : N → Bool) : Option NodePtr :=
  (g.nodes.find? (fun nd => find_fn nd.data)).map (fun nd => nd.node_index)

/-- Rust `Graph::add_node`: push a node whose `node_index` is the previous
vector length, with no edges; return that index. -/
def add_node {N E : Type _} (g : Graph N E) (data : N) : NodePtr × Graph N E :=
  let node_index : NodePtr := ⟨g.nodes.length⟩
  (node_index, { g with nodes := g.nodes ++ [⟨data, node_index, none⟩] })

/-- Rust `Graph::add_edge`: push an edge at index `edges.len()` whose
`next_edge` is the source node's old `first_edge`, then point the source
node's `first_edge` at the new edge.  Reading `self.nodes[from.idx]`
panics when `from` is out of bounds. -/
def add_edge {N E : Type _} (g : Graph N E) (fromP toP : NodePtr) (edge_data : E) :
    Res (Graph N E) :=
  match g.nodes.get? fromP.idx with
  | none => Res.panicked
  | some nd =>
    Res.value
      { nodes := g.nodes.set fromP.idx { nd with first_edge := some ⟨g.edges.length⟩ },
        edges := g.edges ++ [⟨edge_data, toP, nd.first_edge⟩] }

/-- The `match self.find_node_index(..) { None => self.add_node(..), Some(i) => i }`
pattern that `add_edge_by_data` performs for each endpoint. -/
def findOrAdd {N E : Type _} [DecidableEq N] (g : Graph N E) (data : N) :
    NodePtr × Graph N E :=
  match g.find_node_index (fun x => decide (x = data)) with
  | none => g.add_node data
  | some p => (p, g)

/-- Rust `Graph::add_edge_by_data`: find or insert both endpoints, then add the
edge(s) dictated by the `Relationship`. -/
def add_edge_by_data {N E : Type _} [DecidableEq N] (g : Graph N E) (node_a node_b : N)
    (relatoinship : Relationship E) : Res (Graph N E) :=
  let pa := findOrAdd g node_a
  let pb := findOrAdd pa.2 node_b
  match relatoinship with
  | Relationship.BiDirectional a_to_b b_to_a =>
    (pb.2.add_edge pa.1 pb.1 a_to_b).bind fun g3 => g3.add_edge pb.1 pa.1 b_to_a
  | Relationship.AToB e => pb.2.add_edge pa.1 pb.1 e
  | Relationship.BToA e => pb.2.add_edge pb.1 pa.1 e

/-- The list of `(to, data)` pairs produced by driving a `Neighbours`
iterator (`src/utils/graph.rs`, `Neighbours::next`) to exhaustion from a
given edge cursor.  Each step reads `self.graph.get_edge(edge_index)`
(`&self.edges[idx]`, a panic when out of bounds) and moves the cursor to
`next_edge`; the fuel bounds the number of steps, and exhausting it models
an iteration that never reaches the end of a chain. -/
def neighboursAux {N E : Type _} (g : Graph N E) :
    Option EdgePtr → Nat → Res (List (NodePtr × E))
  | none, _ => Res.value []
  | some _, 0 => Res.panicked
  | some p, fuel + 1 =>
    match g.edges.get? p.idx with
    | none => Res.panicked
    | some e =>
      (neighboursAux g e.next_edge fuel).bind fun rest =>
        Res.value ((e.toPtr, e.data) :: rest)

/-- Rust `Graph::neighbours_iter` followed by full iteration of the returned
`Neighbours`: start from `self.nodes[node_index.idx].first_edge` (a panic
when the node index is out of bounds).  A chain in a graph with the arena
invariant has strictly decreasing edge indices, so `edges.len()` fuel is
always enough. -/
def neighbours_iter {N E : Type _} (g : Graph N E) (node_index : NodePtr) :
    Res (List (NodePtr × E)) :=
  match g.nodes.get? node_index.idx with
  | none => Res.panicked
  | some nd => neighboursAux g nd.first_edge g.edges.length

end Graph

/-- One mutating call on a `Graph`, as issued by client code: the three
public mutators. -/
inductive GraphOp (N E : Type _) where
  | addNode (data : N)
  | addEdge (fromIdx toIdx : Nat) (data : E)
  | addEdgeByData (node_a node_b : N) (rel : Relationship E)

/-- Run a sequence of mutating calls left to right; a panic aborts the run. -/
def runOps {N E : Type _} [DecidableEq N] (g : Graph N E) :
    List (GraphOp N E) → Res (Graph N E)
  | [] => Res.value g
  | GraphOp.addNode d :: rest => runOps (g.add_node d).2 rest
  | GraphOp.addEdge f t d :: rest =>
    (g.add_edge ⟨f⟩ ⟨t⟩ d).bind fun g2 => runOps g2 rest
  | GraphOp.addEdgeByData a b rel :: rest =>
    (g.add_edge_by_data a b rel).bind fun g2 => runOps g2 rest

/-- A sequence of `add_node`/`add_edge` calls only (the shape quantified
over in the adjacency-list claim). -/
inductive Op2 (N E : Type _) where
  | node (data : N)
  | edge (fromIdx toIdx : Nat) (data : E)

/-- Run `add_node`/`add_edge` calls left to right. -/
def run2 {N E : Type _} (g : Graph N E) : List (Op2 N E) → Res (Graph N E)
  | [] => Res.value g
  | Op2.node d :: rest => run2 (g.add_node d).2 rest
  | Op2.edge f t d :: rest => (g.add_edge ⟨f⟩ ⟨t⟩ d).bind fun g2 => run2 g2 rest

/-- Well-formed usage starting from `n` existing nodes: every `add_edge`
call passes `NodePtr`s previously returned by `add_node` on the same graph
(indices below the current node count). -/
def WF2 {N E : Type _} : Nat → List (Op2 N E) → Bool
  | _, [] => true
  | n, Op2.node _ :: rest => WF2 (n + 1) rest
  | n, Op2.edge f t _ :: rest => decide (f < n) && decide (t < n) && WF2 n rest

/-- Node count after a sequence of `Op2` calls, starting from `n` nodes. -/
def nodeCount2 {N E : Type _} : Nat → List (Op2 N E) → Nat
  | n, [] => n
  | n, Op2.node _ :: rest => nodeCount2 (n + 1) rest
  | n, Op2.edge _ _ _ :: rest => nodeCount2 n rest

/-- The `(from, to, data)` triples of the `add_edge` calls of a sequence,
in call order. -/
def edgeTriples {N E : Type _} : List (Op2 N E) → List (Nat × Nat × E)
  | [] => []
  | Op2.node _ :: rest => edgeTriples rest
  | Op2.edge f t d :: rest => (f, t, d) :: edgeTriples rest

/-- What the specification says `neighbours_iter n` must yield: the
`(to, data)` pairs of exactly the edges added with source `n`, most
recently added first. -/
def specNeighbours {E : Type _} (tr : List (Nat × Nat × E)) (n : Nat) :
    List (NodePtr × E) :=
  ((tr.filter (fun t => decide (t.1 = n))).reverse).map (fun t => (⟨t.2.1⟩, t.2.2))

/-- Split a line into its whitespace-separated tokens, skipping runs of
whitespace: a model of `str::split_whitespace` as used by
`day1::parse_input` (whitespace is modelled by `Char.isWhitespace`; day-1
inputs separate the two columns with ASCII spaces). -/
def wsSplitAux : List Char → List Char → List (List Char)
  | [], cur => if cur.isEmpty then [] else [cur.reverse]
  | c :: rest, cur =>
    if c.isWhitespace then
      if cur.isEmpty then wsSplitAux rest [] else cur.reverse :: wsSplitAux rest []
    else wsSplitAux rest (c :: cur)

/-- The whitespace tokens of a line. -/
def wsTokens (line : String) : List (List Char) :=
  wsSplitAux line.data []

/-- Rust `str::parse::<u32>()` as a partial function: an optional leading `+`
sign followed by at least one ASCII digit, with the resulting value below
`2^32`; anything else (including overflow) is a parse error. -/
def parseU32 (tok : List Char) : Option Nat :=
  let ds := match tok with
    | '+' :: rest => rest
    | other => other
  if ds.isEmpty then none
  else if ds.all (fun c => c.isDigit) then
    let v := ds.foldl (fun acc c => acc * 10 + (c.toNat - '0'.toNat)) 0
    if v < 2 ^ 32 then some v else none
  else none

/-- The per-line closure of `day1::parse_input`:
`split.next().unwrap().parse::<u32>().unwrap()` for the first two
whitespace tokens; a missing token or a failed parse is a panic.  Tokens
beyond the second are never consumed. -/
def parseLine (line : String) : Res (Nat × Nat) :=
  match wsTokens line with
  | t0 :: t1 :: _ =>
    match parseU32 t0, parseU32 t1 with
    | some a, some b => Res.value (a, b)
    | _, _ => Res.panicked
  | _ => Res.panicked

/-- Rust `day1::parse_input`: map the per-line closure over the input lines and
fold the resulting pairs into two column vectors, panicking at the first
bad line. -/
def parse_input : List String → Res (List Nat × List Nat)
  | [] => Res.value ([], [])
  | line :: rest =>
    (parseLine line).bind fun ab =>
      (parse_input rest).bind fun ls =>
        Res.value (ab.1 :: ls.1, ab.2 :: ls.2)

/-- Rust `u32::abs_diff`. -/
def absDiff (a b : Nat) : Nat := if a ≤ b then b - a else a - b

/-- Rust `day1::part1`: parse, sort both columns ascending (`sort_unstable`),
zip them and sum `b.abs_diff(a)` over the pairs. -/
def part1 (input : List String) : Res Nat :=
  (parse_input input).bind fun ls =>
    let list1 := ls.1.mergeSort (fun a b => decide (a ≤ b))
    let list2 := ls.2.mergeSort (fun a b => decide (a ≤ b))
    Res.value ((list1.zip list2).map (fun p => absDiff p.1 p.2)).sum

/-- Rust `day1::part2`: tally each left-column key's multiplicity, count its
occurrences in the right column, and sum `key * count * tally`.  The
`HashMap` holds one entry per distinct left-column key; its iteration
order does not affect the sum, which is modelled by summing over the
deduplicated left column. -/
def part2 (input : List String) : Res Nat :=
  (parse_input input).bind fun ls =>
    Res.value ((ls.1.dedup).map (fun key =>
      (key * ls.2.count key) * ls.1.count key)).sum

/-- Modelled from the spec: `Utils::run_part` lives in
`utils/day_setup.rs` (the `aoc_utils_rust` day-setup module), which is not
under `src/`.  Per the spec, each day is self-checked against hard-coded
expected outputs with no failure handling beyond panic: `run_part` runs
the part function on the day's input file and panics when an expected
value is supplied and the computed result differs from it. -/
def run_part (part_fn : List String → Res Nat) (expected : Option Nat)
    (input : List String) : Res Unit :=
  (part_fn input).bind fun result =>
    match expected with
    | none => Res.value ()
    | some e => if result = e then Res.value () else Res.panicked

/-- Rust `day1::run`: `Utils::run_part(part1, 1, 1, Some(3574690))` then
`Utils::run_part(part2, 2, 1, Some(22565391))`, each over the day's input
file (taken here as a parameter). -/
def day1_run (input : List String) : Res Unit :=
  (run_part part1 (some 3574690) input).bind fun _ =>
    run_part part2 (some 22565391) input

/-- A line on which the per-line closure of `day1::parse_input` panics:
fewer than two whitespace tokens, or a first or second token that does not
parse as a `u32`. -/
def badLine (line : String) : Bool :=
  match wsTokens line with
  | t0 :: t1 :: _ => (parseU32 t0).isNone || (parseU32 t1).isNone
  | _ => true

/-- Indices (into the ghost edge-triple trace) of the edges whose source is
node `n`, most recently added first. -/
def srcIdx {E : Type _} (tr : List (Nat × Nat × E)) (n : Nat) : List Nat :=
  ((List.range tr.length).filter (fun k =>
    match tr.get? k with
    | some t => decide (t.1 = n)
    | none => false)).reverse

/-- Rust `ChainOk es o l`: starting from the edge cursor `o`, following
`next_edge` pointers through the edge arena `es` visits exactly the edge
indices `l`, in order, and ends at `None`. -/
inductive ChainOk {E : Type _} (es : List (Edge E)) : Option EdgePtr → List Nat → Prop where
  | nil : ChainOk es none []
  | cons {k : Nat} {e : Edge E} {l : List Nat} :
      es.get? k = some e →
      ChainOk es e.next_edge l →
      ChainOk es (some ⟨k⟩) (k :: l)

/-- The `(to, data)` pairs of the edges at the given arena indices. -/
def specOfChain {E : Type _} (es : List (Edge E)) (l : List Nat) : List (NodePtr × E) :=
  l.filterMap (fun k => (es.get? k).map (fun e => (e.toPtr, e.data)))

/-- The arena invariant of `Graph`, relative to a ghost trace `tr` of the
`(from, to, data)` triples of the `add_edge` calls performed so far, in
call order:
* the trace lists one triple per arena edge, with matching `to` and data;
* every recorded source index is a node of the graph;
* every node's stored `node_index` is its position in the node vector;
* every edge's `to` pointer and `next_edge` pointer are in bounds, as is
  every node's `first_edge` pointer;
* each node's edge chain visits exactly the edges added with that node as
  source, most recently added first. -/
structure GInv {N E : Type _} (g : Graph N E) (tr : List (Nat × Nat × E)) : Prop where
  tr_len : tr.length = g.edges.length
  tr_corr : ∀ k t, tr.get? k = some t →
    (g.edges.get? k).map (fun e => (e.toPtr.idx, e.data)) = some (t.2.1, t.2.2)
  tr_src_lt : ∀ t ∈ tr, t.1 < g.nodes.length
  node_idx : ∀ i nd, g.nodes.get? i = some nd → nd.node_index = ⟨i⟩
  to_lt : ∀ e ∈ g.edges, e.toPtr.idx < g.nodes.length
  next_lt : ∀ e ∈ g.edges, ∀ p, e.next_edge = some p → p.idx < g.edges.length
  first_lt : ∀ nd ∈ g.nodes, ∀ p, nd.first_edge = some p → p.idx < g.edges.length
  chains : ∀ i nd, g.nodes.get? i = some nd → ChainOk g.edges nd.first_edge (srcIdx tr i)

/-- Graphs reachable from `Graph::new` by the public mutators, where
`add_edge` is fed `NodePtr`s produced by `add_node` on the same graph
(indices below the node count; the crate documents that indices from one
graph must not be used with another). -/
inductive Reachable {N E : Type _} [DecidableEq N] : Graph N E → Prop where
  | new : Reachable Graph.new
  | add_node (g : Graph N E) (d : N) : Reachable g → Reachable (g.add_node d).2
  | add_edge (g : Graph N E) (fromP toP : NodePtr) (d : E) (g2 : Graph N E) :
      Reachable g → fromP.idx < g.nodes.length → toP.idx < g.nodes.length →
      g.add_edge fromP toP d = Res.value g2 → Reachable g2
  | add_edge_by_data (g : Graph N E) (a b : N) (rel : Relationship E) (g2 : Graph N E) :
      Reachable g → g.add_edge_by_data a b rel = Res.value g2 → Reachable g2

lemma parseLine_of_badLine {line : String} (h : badLine line = true) :
    parseLine line = Res.panicked := by
  unfold badLine at h
  unfold parseLine
  cases hts : wsTokens line with
  | nil => rfl
  | cons t0 rest =>
    cases rest with
    | nil => rfl
    | cons t1 rest2 =>
      rw [hts] at h
      cases h0 : parseU32 t0 <;> cases h1 : parseU32 t1 <;>
        simp [h0, h1, Option.isNone] at h ⊢

lemma parse_input_of_badLine {input : List String} {line : String}
    (hmem : line ∈ input) (h : badLine line = true) :
    parse_input input = Res.panicked := by
  induction input with
  | nil => cases hmem
  | cons l rest ih =>
    rcases List.mem_cons.mp hmem with rfl | hmem2
    · simp [parse_input, parseLine_of_badLine h, Res.bind]
    · cases hl : parseLine l with
      | panicked => simp [parse_input, hl, Res.bind]
      | value ab => simp [parse_input, hl, Res.bind, ih hmem2]

/-- C3: for every `Coordinate` `c`, `c + North`, `c + East`, `c + South`,
`c + West` and `c + Current` move by the fixed offsets `(-1,0)`, `(0,1)`,
`(1,0)`, `(0,-1)` and `(0,0)`; `c + d` for a `FullDirection` `d` adds
exactly `d.offset()`; and each diagonal offset is the componentwise sum of
its two cardinal offsets. -/
theorem c3_direction_arithmetic :
    (∀ c : Coordinate,
      c.addDir Direction.North = ⟨c.i - 1, c.j⟩ ∧
      c.addDir Direction.East = ⟨c.i, c.j + 1⟩ ∧
      c.addDir Direction.South = ⟨c.i + 1, c.j⟩ ∧
      c.addDir Direction.West = ⟨c.i, c.j - 1⟩ ∧
      c.addDir Direction.Current = c) ∧
    (∀ (c : Coordinate) (d : FullDirection),
      c.addFullDir d = ⟨c.i + d.offset.1, c.j + d.offset.2⟩) ∧
    FullDirection.NorthEast.offset =
      (Direction.North.offset.1 + Direction.East.offset.1,
       Direction.North.offset.2 + Direction.East.offset.2) ∧
    FullDirection.SouthEast.offset =
      (Direction.South.offset.1 + Direction.East.offset.1,
       Direction.South.offset.2 + Direction.East.offset.2) ∧
    FullDirection.SouthWest.offset =
      (Direction.South.offset.1 + Direction.West.offset.1,
       Direction.South.offset.2 + Direction.West.offset.2) ∧
    FullDirection.NorthWest.offset =
      (Direction.North.offset.1 + Direction.West.offset.1,
       Direction.North.offset.2 + Direction.West.offset.2) := by
  refine ⟨fun c => ?_, fun c d => rfl, by decide, by decide, by decide, by decide⟩
  refine ⟨?_, ?_, ?_, ?_, ?_⟩ <;>
    simp [Coordinate.addDir, Direction.offset, Coordinate.mk.injEq] <;> omega

/-- C9: `day1::part1` and `day1::part2` are functions of the parsed input
alone: evaluating either twice on equal inputs yields equal results, with
no other state in their signature. -/
theorem c9_parts_deterministic (input input2 : List String) (h : input = input2) :
    part1 input = part1 input2 ∧ part2 input = part2 input2 := by
  subst h
  exact ⟨rfl, rfl⟩

theorem c9_parts_deterministic_witness :
    part1 ["3 4"] = part1 ["3 4"] ∧ part2 ["3 4"] = part2 ["3 4"] :=
  c9_parts_deterministic ["3 4"] ["3 4"] rfl

/-- C8: `day1::run` checks `part1` against the hard-coded `3574690` and
`part2` against the hard-coded `22565391`; it completes normally exactly
when both computed results match, and panics exactly when either part
panics or returns a result different from its expected value. -/
theorem c8_run_selfcheck (input : List String) :
    (day1_run input = Res.value () ↔
      part1 input = Res.value 3574690 ∧ part2 input = Res.value 22565391) ∧
    (day1_run input = Res.panicked ↔
      ¬(part1 input = Res.value 3574690 ∧ part2 input = Res.value 22565391)) := by
  cases h1 : part1 input with
  | panicked => simp [day1_run, run_part, h1, Res.bind]
  | value a =>
    cases h2 : part2 input with
    | panicked =>
      by_cases ha : a = 3574690 <;> simp [day1_run, run_part, h1, h2, Res.bind, ha]
    | value b =>
      by_cases ha : a = 3574690 <;> by_cases hb : b = 22565391 <;>
        simp [day1_run, run_part, h1, h2, Res.bind, ha, hb]

/-- C7 fails as stated: the line `"1 2 junk"` does not consist of two
whitespace-separated tokens (it has three), yet `day1::parse_input`
accepts it without panicking, returning the first two tokens and ignoring
the rest. -/
theorem c7_extra_token_counterexample :
    (wsTokens "1 2 junk").length = 3 ∧
    parse_input ["1 2 junk"] = Res.value ([1], [2]) ∧
    part1 ["1 2 junk"] = Res.value 1 := by
  refine ⟨rfl, rfl, ?_⟩
  have h : parse_input ["1 2 junk"] = Res.value ([1], [2]) := rfl
  simp [part1, h, Res.bind, List.mergeSort, absDiff]

/-- C7 amended: `day1` fails only by panicking on lines whose first two
whitespace tokens are missing or unparseable: for every input vector
containing a line with fewer than two whitespace tokens, or whose first or
second token does not parse as a `u32`, `parse_input` (and therefore
`part1` and `part2`) panics; tokens beyond the second are ignored. -/
theorem c7_parse_panics_amended (input : List String) (line : String)
    (hmem : line ∈ input) (h : badLine line = true) :
    parse_input input = Res.panicked ∧
    part1 input = Res.panicked ∧
    part2 input = Res.panicked := by
  have hp := parse_input_of_badLine hmem h
  exact ⟨hp, by simp [part1, hp, Res.bind], by simp [part2, hp, Res.bind]⟩

theorem c7_parse_panics_witness :
    parse_input ["1 x"] = Res.panicked ∧
    part1 ["1 x"] = Res.panicked ∧
    part2 ["1 x"] = Res.panicked :=
  c7_parse_panics_amended ["1 x"] "1 x" (by simp) (by decide)

lemma sizedGrid_get_of_valid {α : Type _} {R C : Nat} (g : SizedGrid α R C) (c : Coordinate)
    (h : g.is_valid_coordinate c = true) :
    ∃ x, (g.matrix.get? c.i.toNat).bind (fun row => row.get? c.j.toNat) = some x ∧
      g.get c = Res.value (some x) := by
  have h' := h
  unfold SizedGrid.is_valid_coordinate at h'
  simp only [Bool.and_eq_true, decide_eq_true_eq] at h'
  obtain ⟨⟨⟨hi0, hj0⟩, hiR⟩, hjC⟩ := h'
  have hi : c.i.toNat < g.matrix.length := by rw [g.hrows]; omega
  cases hr : g.matrix.get? c.i.toNat with
  | none =>
    have := List.get?_eq_none.mp hr
    exact absurd hi (by omega)
  | some row =>
    have hrl : row.length = C := g.hcols row (List.get?_mem hr)
    have hj : c.j.toNat < row.length := by rw [hrl]; omega
    cases hx : row.get? c.j.toNat with
    | none =>
      have := List.get?_eq_none.mp hx
      exact absurd hj (by omega)
    | some x =>
      have hb : (g.matrix.get? c.i.toNat).bind (fun row => row.get? c.j.toNat) = some x := by
        rw [hr]; exact hx
      refine ⟨x, hx, ?_⟩
      unfold SizedGrid.get
      rw [if_pos h, hb]

lemma sizedGrid_get_of_invalid {α : Type _} {R C : Nat} (g : SizedGrid α R C) (c : Coordinate)
    (h : g.is_valid_coordinate c = false) : g.get c = Res.value none := by
  simp [SizedGrid.get, h]

lemma unsizedGrid_get_of_valid {α : Type _} (g : UnsizedGrid α) (hrect : g.isRect)
    (c : Coordinate) (h : g.is_valid_coordinate c = true) :
    ∃ x, (g.matrix.get? c.i.toNat).bind (fun row => row.get? c.j.toNat) = some x ∧
      g.get c = Res.value (some x) := by
  have h' := h
  unfold UnsizedGrid.is_valid_coordinate at h'
  simp only [Bool.and_eq_true, decide_eq_true_eq] at h'
  obtain ⟨⟨⟨hi0, hj0⟩, hiR⟩, hjC⟩ := h'
  have hi : c.i.toNat < g.matrix.length := by
    have : g.num_rows = g.matrix.length := rfl
    omega
  cases hr : g.matrix.get? c.i.toNat with
  | none =>
    have := List.get?_eq_none.mp hr
    exact absurd hi (by omega)
  | some row =>
    have hrl : row.length = g.num_cols := hrect row (List.get?_mem hr)
    have hj : c.j.toNat < row.length := by rw [hrl]; omega
    cases hx : row.get? c.j.toNat with
    | none =>
      have := List.get?_eq_none.mp hx
      exact absurd hj (by omega)
    | some x =>
      have hb : (g.matrix.get? c.i.toNat).bind (fun row => row.get? c.j.toNat) = some x := by
        rw [hr]; exact hx
      refine ⟨x, hx, ?_⟩
      unfold UnsizedGrid.get
      rw [if_pos h, hb]

lemma unsizedGrid_get_of_invalid {α : Type _} (g : UnsizedGrid α) (c : Coordinate)
    (h : g.is_valid_coordinate c = false) : g.get c = Res.value none := by
  simp [UnsizedGrid.get, h]

lemma UnsizedGrid.new_spec {α : Type _} {rows : List (List α)} {g : UnsizedGrid α}
    (h : UnsizedGrid.new rows = Res.value g) :
    g.matrix = rows ∧ 1 ≤ g.num_rows ∧ 1 ≤ g.num_cols := by
  cases rows with
  | nil => cases h
  | cons row0 rest =>
    unfold UnsizedGrid.new at h
    by_cases h0 : row0.length > 0
    · simp only [h0, if_pos] at h
      cases h
      refine ⟨rfl, by simp [UnsizedGrid.num_rows], ?_⟩
      simp [UnsizedGrid.num_cols]
      omega
    · simp only [h0, if_neg] at h
      cases h

/-- C1 fails as stated for ragged grids: `UnsizedGrid::new` accepts rows
of unequal lengths (here `[[0,1],[2]]`), `is_valid_coordinate (1,1)` holds
(both components below `num_rows = num_cols = 2`), yet `get (1,1)` panics
on the out-of-bounds indexing of the short row instead of returning
`Some`. -/
theorem c1_ragged_get_counterexample :
    UnsizedGrid.new [[0, 1], [2]] = Res.value (UnsizedGrid.mk [[0, 1], [2]]) ∧
    (UnsizedGrid.mk [[0, 1], [2]] : UnsizedGrid Nat).is_valid_coordinate ⟨1, 1⟩ = true ∧
    (UnsizedGrid.mk [[0, 1], [2]] : UnsizedGrid Nat).get ⟨1, 1⟩ = Res.panicked := by
  refine ⟨rfl, rfl, rfl⟩

/-- C1 amended: grid element access is bounds-checked for every
`SizedGrid` and for every rectangular `UnsizedGrid` built by `new` (all
rows as long as row 0): `get c` returns `Some` of the element at row
`c.i`, column `c.j` exactly when `is_valid_coordinate c` holds and `None`
otherwise, never panicking.  (For an `UnsizedGrid` built from rows of
unequal lengths, `get` can panic at a coordinate that
`is_valid_coordinate` accepts.) -/
theorem c1_bounds_checked_amended {α : Type} :
    (∀ (R C : Nat) (g : SizedGrid α R C) (c : Coordinate),
      (g.is_valid_coordinate c = true →
        ∃ x, (g.matrix.get? c.i.toNat).bind (fun row => row.get? c.j.toNat) = some x ∧
          g.get c = Res.value (some x)) ∧
      (g.is_valid_coordinate c = false → g.get c = Res.value none)) ∧
    (∀ (rows : List (List α)) (g : UnsizedGrid α),
      UnsizedGrid.new rows = Res.value g → g.isRect → ∀ c : Coordinate,
      (g.is_valid_coordinate c = true →
        ∃ x, (g.matrix.get? c.i.toNat).bind (fun row => row.get? c.j.toNat) = some x ∧
          g.get c = Res.value (some x)) ∧
      (g.is_valid_coordinate c = false → g.get c = Res.value none)) := by
  constructor
  · intro R C g c
    exact ⟨sizedGrid_get_of_valid g c, sizedGrid_get_of_invalid g c⟩
  · intro rows g _ hrect c
    exact ⟨unsizedGrid_get_of_valid g hrect c, unsizedGrid_get_of_invalid g c⟩

theorem c1_bounds_checked_witness :
    ∃ x, ((UnsizedGrid.mk [[5]] : UnsizedGrid Nat).matrix.get? (0 : Int).toNat).bind
        (fun row => row.get? (0 : Int).toNat) = some x ∧
      (UnsizedGrid.mk [[5]] : UnsizedGrid Nat).get ⟨0, 0⟩ = Res.value (some x) :=
  (c1_bounds_checked_amended.2 [[5]] (UnsizedGrid.mk [[5]]) rfl
    (by simp [UnsizedGrid.isRect, UnsizedGrid.num_cols]) ⟨0, 0⟩).1 (by decide)

/-- C10 fails as stated for ragged grids: the `UnsizedGrid` built by `new`
from `[[0,1],[2]]` has `num_rows = num_cols = 2`, `last_coordinate`
returns `(1,1)` and `is_valid_coordinate` accepts it, but `get` of that
coordinate panics instead of returning `Some`. -/
theorem c10_ragged_last_counterexample :
    UnsizedGrid.new [[0, 1], [2]] = Res.value (UnsizedGrid.mk [[0, 1], [2]]) ∧
    (UnsizedGrid.mk [[0, 1], [2]] : UnsizedGrid Nat).num_rows = 2 ∧
    (UnsizedGrid.mk [[0, 1], [2]] : UnsizedGrid Nat).num_cols = 2 ∧
    (UnsizedGrid.mk [[0, 1], [2]] : UnsizedGrid Nat).last_coordinate = ⟨1, 1⟩ ∧
    (UnsizedGrid.mk [[0, 1], [2]] : UnsizedGrid Nat).is_valid_coordinate
      (UnsizedGrid.mk [[0, 1], [2]] : UnsizedGrid Nat).last_coordinate = true ∧
    (UnsizedGrid.mk [[0, 1], [2]] : UnsizedGrid Nat).get
      (UnsizedGrid.mk [[0, 1], [2]] : UnsizedGrid Nat).last_coordinate = Res.panicked := by
  refine ⟨rfl, rfl, rfl, rfl, rfl, rfl⟩

/-- C10 amended: for every `SizedGrid` with `ROW ≥ 1` and `COL ≥ 1`, and
for every rectangular `UnsizedGrid` built by `new`, `last_coordinate()`
returns `(num_rows - 1, num_cols - 1)`, that coordinate is valid, and
`get` of it returns `Some`.  (On a ragged `UnsizedGrid`, `get` of the last
coordinate can panic; for an empty grid the `usize` subtraction in
`last_coordinate` is not defined.) -/
theorem c10_last_coordinate_amended {α : Type} :
    (∀ (R C : Nat) (g : SizedGrid α R C), 1 ≤ R → 1 ≤ C →
      g.last_coordinate = ⟨((R - 1 : Nat) : Int), ((C - 1 : Nat) : Int)⟩ ∧
      g.is_valid_coordinate g.last_coordinate = true ∧
      ∃ x, g.get g.last_coordinate = Res.value (some x)) ∧
    (∀ (rows : List (List α)) (g : UnsizedGrid α),
      UnsizedGrid.new rows = Res.value g → g.isRect →
      1 ≤ g.num_rows ∧ 1 ≤ g.num_cols ∧
      g.last_coordinate = ⟨((g.num_rows - 1 : Nat) : Int), ((g.num_cols - 1 : Nat) : Int)⟩ ∧
      g.is_valid_coordinate g.last_coordinate = true ∧
      ∃ x, g.get g.last_coordinate = Res.value (some x)) := by
  constructor
  · intro R C g hR hC
    have hvalid : g.is_valid_coordinate g.last_coordinate = true := by
      simp only [SizedGrid.is_valid_coordinate, SizedGrid.last_coordinate,
        Bool.and_eq_true, decide_eq_true_eq]
      refine ⟨⟨⟨?_, ?_⟩, ?_⟩, ?_⟩ <;> omega
    obtain ⟨x, _, hget⟩ := sizedGrid_get_of_valid g _ hvalid
    exact ⟨rfl, hvalid, x, hget⟩
  · intro rows g hnew hrect
    obtain ⟨_, hR, hC⟩ := UnsizedGrid.new_spec hnew
    have hvalid : g.is_valid_coordinate g.last_coordinate = true := by
      simp only [UnsizedGrid.is_valid_coordinate, UnsizedGrid.last_coordinate,
        Bool.and_eq_true, decide_eq_true_eq]
      refine ⟨⟨⟨?_, ?_⟩, ?_⟩, ?_⟩ <;> omega
    obtain ⟨x, _, hget⟩ := unsizedGrid_get_of_valid g hrect _ hvalid
    exact ⟨hR, hC, rfl, hvalid, x, hget⟩

theorem c10_last_coordinate_witness :
    1 ≤ (UnsizedGrid.mk [[7]] : UnsizedGrid Nat).num_rows ∧
    1 ≤ (UnsizedGrid.mk [[7]] : UnsizedGrid Nat).num_cols ∧
    (UnsizedGrid.mk [[7]] : UnsizedGrid Nat).last_coordinate =
      ⟨(((UnsizedGrid.mk [[7]] : UnsizedGrid Nat).num_rows - 1 : Nat) : Int),
       (((UnsizedGrid.mk [[7]] : UnsizedGrid Nat).num_cols - 1 : Nat) : Int)⟩ ∧
    (UnsizedGrid.mk [[7]] : UnsizedGrid Nat).is_valid_coordinate
      (UnsizedGrid.mk [[7]] : UnsizedGrid Nat).last_coordinate = true ∧
    ∃ x, (UnsizedGrid.mk [[7]] : UnsizedGrid Nat).get
      (UnsizedGrid.mk [[7]] : UnsizedGrid Nat).last_coordinate = Res.value (some x) :=
  c10_last_coordinate_amended.2 [[7]] (UnsizedGrid.mk [[7]]) rfl
    (by simp [UnsizedGrid.isRect, UnsizedGrid.num_cols])

/-- C6 fails on the code (code bug): for the slice of grid `[[10,11,12]]`
with row range `0..1` and column range `1..3`, the view contains the
elements `11` (at coordinate `(0,1)`) and `12` (at `(0,2)`), but `iter()`
yields the single item `((0,1), 12)`: `GridViewIter` applies `col.start`
twice, once when slicing the row (`row_as_slice`) and once as the starting
index of the `RowIter` over the already-sliced row, so for a column range
not starting at 0 elements are skipped and the yielded coordinates do not
match the underlying grid. -/
theorem c6_slice_iter_code_bug :
    (GridSlice.mk [[10, 11, 12]] ⟨0, 1⟩ ⟨1, 3⟩ : GridSlice Nat).iterList
      = Res.value [[(⟨0, 1⟩, 12)]] ∧
    (GridSlice.mk [[10, 11, 12]] ⟨0, 1⟩ ⟨1, 3⟩ : GridSlice Nat).gridGet ⟨0, 1⟩ = some 11 ∧
    (GridSlice.mk [[10, 11, 12]] ⟨0, 1⟩ ⟨1, 3⟩ : GridSlice Nat).is_valid_coordinate ⟨0, 2⟩
      = true ∧
    (GridSlice.mk [[10, 11, 12]] ⟨0, 1⟩ ⟨1, 3⟩ : GridSlice Nat).gridGet ⟨0, 2⟩ = some 12 := by
  refine ⟨?_, rfl, rfl, rfl⟩
  rw [GridSlice.iterList, gridViewIterAux]
  norm_num [RangeN.containsN, GridSlice.row_as_slice, Res.bind]
  rw [gridViewIterAux]
  norm_num [RangeN.containsN, Res.bind]
  rw [rowIterFrom]
  norm_num [Coordinate.new, List.get]
  rw [rowIterFrom]
  norm_num

lemma chainOk_append {E : Type _} {es es2 : List (Edge E)} {o : Option EdgePtr} {l : List Nat}
    (h : ChainOk es o l) : ChainOk (es ++ es2) o l := by
  induction h with
  | nil => exact ChainOk.nil
  | cons hk hnext ih =>
    have hlt := (List.get?_eq_some.mp hk).1
    exact ChainOk.cons (by rw [List.get?_append hlt]; exact hk) ih

lemma chainOk_eval {N E : Type _} {g : Graph N E} {o : Option EdgePtr} {l : List Nat}
    (h : ChainOk g.edges o l) : ∀ fuel, l.length ≤ fuel →
    Graph.neighboursAux g o fuel = Res.value (specOfChain g.edges l) := by
  induction h with
  | nil => intro fuel _; cases fuel <;> rfl
  | @cons k e l2 hk hnext ih =>
    intro fuel hf
    cases fuel with
    | zero => simp at hf
    | succ fuel =>
      have hl : l2.length ≤ fuel := by
        simp only [List.length_cons] at hf
        omega
      have hrest := ih fuel hl
      show Graph.neighboursAux g (some ⟨_⟩) (fuel + 1) = _
      unfold Graph.neighboursAux
      rw [hk]
      simp only [hrest, Res.bind, specOfChain, List.filterMap_cons, hk, Option.map_some']

lemma srcIdx_concat {E : Type _} (tr : List (Nat × Nat × E)) (t : Nat × Nat × E) (n : Nat) :
    srcIdx (tr ++ [t]) n = (if t.1 = n then [tr.length] else []) ++ srcIdx tr n := by
  unfold srcIdx
  rw [List.length_append, List.length_singleton, List.range_succ, List.filter_append,
    List.reverse_append]
  congr 1
  · have hget : (tr ++ [t]).get? tr.length = some t := List.get?_concat_length tr t
    simp only [List.filter_cons, List.filter_nil, hget]
    by_cases ht : t.1 = n <;> simp [ht]
  · congr 1
    apply List.filter_congr
    intro k hk
    rw [List.get?_append (List.mem_range.mp hk)]

lemma srcIdx_length_le {E : Type _} (tr : List (Nat × Nat × E)) (n : Nat) :
    (srcIdx tr n).length ≤ tr.length := by
  unfold srcIdx
  rw [List.length_reverse]
  calc (List.filter _ (List.range tr.length)).length
      ≤ (List.range tr.length).length := List.length_filter_le _ _
    _ = tr.length := List.length_range tr.length

lemma srcIdx_eq_nil {E : Type _} {tr : List (Nat × Nat × E)} {n : Nat}
    (h : ∀ t ∈ tr, t.1 ≠ n) : srcIdx tr n = [] := by
  unfold srcIdx
  rw [List.reverse_eq_nil_iff, List.filter_eq_nil_iff]
  intro k _
  cases hget : tr.get? k with
  | none => simp
  | some t => simp [hget, h t (List.get?_mem hget)]

lemma specOfChain_srcIdx {E : Type _} {es : List (Edge E)} {tr : List (Nat × Nat × E)}
    (hcorr : ∀ k t, tr.get? k = some t →
      (es.get? k).map (fun e => (e.toPtr.idx, e.data)) = some (t.2.1, t.2.2)) (n : Nat) :
    specOfChain es (srcIdx tr n) = specNeighbours tr n := by
  induction tr using List.reverseRecOn with
  | nil => rfl
  | append_singleton tr t ih =>
    have hcorr' : ∀ k t', tr.get? k = some t' →
        (es.get? k).map (fun e => (e.toPtr.idx, e.data)) = some (t'.2.1, t'.2.2) := by
      intro k t' hk
      have hlt := (List.get?_eq_some.mp hk).1
      exact hcorr k t' (by rw [List.get?_append hlt]; exact hk)
    rw [srcIdx_concat]
    have htr := hcorr tr.length t (List.get?_concat_length tr t)
    cases hes : es.get? tr.length with
    | none => rw [hes] at htr; cases htr
    | some e =>
      rw [hes] at htr
      simp only [Option.map_some', Option.some.injEq, Prod.mk.injEq] at htr
      obtain ⟨htr1, htr2⟩ := htr
      unfold specNeighbours
      rw [List.filter_append, List.reverse_append, List.map_append]
      by_cases ht : t.1 = n
      · simp only [ht, if_pos]
        rw [specOfChain, List.filterMap_append]
        have hptr : e.toPtr = ⟨t.2.1⟩ := by rw [← htr1]
        have hhead : specOfChain es [tr.length] = [(⟨t.2.1⟩, t.2.2)] := by
          simp only [specOfChain, List.filterMap_cons, List.filterMap_nil, hes,
            Option.map_some']
          rw [hptr, htr2]
        rw [show (List.filterMap (fun k => (es.get? k).map fun e => (e.toPtr, e.data))
            [tr.length]) = specOfChain es [tr.length] from rfl, hhead]
        have htail := ih hcorr'
        rw [show (List.filterMap (fun k => (es.get? k).map fun e => (e.toPtr, e.data))
            (srcIdx tr n)) = specOfChain es (srcIdx tr n) from rfl, htail]
        simp [specNeighbours, ht]
      · simp only [ht, if_neg, not_false_iff, List.nil_append]
        rw [ih hcorr']
        simp [specNeighbours, ht]

lemma ginv_new {N E : Type _} : GInv (Graph.new : Graph N E) [] := by
  refine ⟨rfl, ?_, ?_, ?_, ?_, ?_, ?_, ?_⟩ <;>
    first
      | (intro k t hk; simp [Graph.new] at hk)
      | (intro t ht; simp [Graph.new] at ht)
      | (intro e he; simp [Graph.new] at he)

lemma ginv_add_node {N E : Type _} {g : Graph N E} {tr : List (Nat × Nat × E)}
    (h : GInv g tr) (d : N) : GInv (g.add_node d).2 tr := by
  have hnodes : (g.add_node d).2.nodes = g.nodes ++ [⟨d, ⟨g.nodes.length⟩, none⟩] := rfl
  have hedges : (g.add_node d).2.edges = g.edges := rfl
  refine ⟨?_, ?_, ?_, ?_, ?_, ?_, ?_, ?_⟩
  · rw [hedges]; exact h.tr_len
  · rw [hedges]; exact h.tr_corr
  · intro t ht
    have := h.tr_src_lt t ht
    rw [hnodes, List.length_append]
    omega
  · intro i nd hget
    rw [hnodes] at hget
    by_cases hi : i < g.nodes.length
    · rw [List.get?_append hi] at hget
      exact h.node_idx i nd hget
    · have hlt := (List.get?_eq_some.mp hget).1
      rw [List.length_append, List.length_singleton] at hlt
      have hieq : i = g.nodes.length := by omega
      subst hieq
      rw [List.get?_concat_length] at hget
      cases hget
      rfl
  · intro e he
    rw [hedges] at he
    have := h.to_lt e he
    rw [hnodes, List.length_append]
    omega
  · intro e he p hp
    rw [hedges] at he ⊢
    exact h.next_lt e he p hp
  · intro nd hnd p hp
    rw [hnodes] at hnd
    rw [hedges]
    rcases List.mem_append.mp hnd with hold | hnew
    · exact h.first_lt nd hold p hp
    · have : nd = ⟨d, ⟨g.nodes.length⟩, none⟩ := List.mem_singleton.mp hnew
      subst this
      simp at hp
  · intro i nd hget
    rw [hnodes] at hget
    rw [hedges]
    by_cases hi : i < g.nodes.length
    · rw [List.get?_append hi] at hget
      exact h.chains i nd hget
    · have hlt := (List.get?_eq_some.mp hget).1
      rw [List.length_append, List.length_singleton] at hlt
      have hieq : i = g.nodes.length := by omega
      subst hieq
      rw [List.get?_concat_length] at hget
      cases hget
      have hnil : srcIdx tr g.nodes.length = [] :=
        srcIdx_eq_nil fun t ht => Nat.ne_of_lt (h.tr_src_lt t ht)
      rw [hnil]
      exact ChainOk.nil

lemma ginv_add_edge {N E : Type _} {g : Graph N E} {tr : List (Nat × Nat × E)}
    (h : GInv g tr) {f t : Nat} (hf : f < g.nodes.length) (ht : t < g.nodes.length) (d : E) :
    ∃ g2, g.add_edge ⟨f⟩ ⟨t⟩ d = Res.value g2 ∧ GInv g2 (tr ++ [(f, t, d)]) ∧
      g2.nodes.length = g.nodes.length ∧ g2.edges.length = g.edges.length + 1 := by
  cases hget : g.nodes.get? f with
  | none =>
    have := List.get?_eq_none.mp hget
    exact absurd hf (by omega)
  | some nd =>
    refine ⟨⟨g.nodes.set f { nd with first_edge := some ⟨g.edges.length⟩ },
             g.edges ++ [⟨d, ⟨t⟩, nd.first_edge⟩]⟩, ?_, ?_, List.length_set _ _ _, by simp⟩
    · unfold Graph.add_edge
      rw [hget]
    · refine ⟨?_, ?_, ?_, ?_, ?_, ?_, ?_, ?_⟩
      · simp only [List.length_append, List.length_singleton]
        rw [h.tr_len]
      · intro k tt hk
        by_cases hklt : k < tr.length
        · rw [List.get?_append hklt] at hk
          rw [List.get?_append (by rw [← h.tr_len]; exact hklt)]
          exact h.tr_corr k tt hk
        · have hlt := (List.get?_eq_some.mp hk).1
          rw [List.length_append, List.length_singleton] at hlt
          have hkeq : k = tr.length := by omega
          subst hkeq
          rw [List.get?_concat_length] at hk
          cases hk
          rw [h.tr_len, List.get?_concat_length]
          rfl
      · intro tt htt
        rw [List.length_set]
        rcases List.mem_append.mp htt with hold | hnew
        · exact h.tr_src_lt tt hold
        · have : tt = (f, t, d) := List.mem_singleton.mp hnew
          subst this
          exact hf
      · intro i nd2 hgi
        by_cases hif : i = f
        · subst hif
          rw [List.get?_set_eq_of_lt _ hf] at hgi
          cases hgi
          exact h.node_idx i nd hget
        · rw [List.get?_set_ne _ _ (Ne.symm hif)] at hgi
          exact h.node_idx i nd2 hgi
      · intro e he
        rw [List.length_set]
        rcases List.mem_append.mp he with hold | hnew
        · exact h.to_lt e hold
        · have : e = ⟨d, ⟨t⟩, nd.first_edge⟩ := List.mem_singleton.mp hnew
          subst this
          exact ht
      · intro e he p hp
        simp only [List.length_append, List.length_singleton]
        rcases List.mem_append.mp he with hold | hnew
        · have := h.next_lt e hold p hp
          omega
        · have : e = ⟨d, ⟨t⟩, nd.first_edge⟩ := List.mem_singleton.mp hnew
          subst this
          have := h.first_lt nd (List.get?_mem hget) p hp
          omega
      · intro nd2 hnd2 p hp
        simp only [List.length_append, List.length_singleton]
        obtain ⟨i, hgi⟩ := List.mem_iff_get?.mp hnd2
        by_cases hif : i = f
        · subst hif
          rw [List.get?_set_eq_of_lt _ hf] at hgi
          cases hgi
          simp only at hp
          cases hp
          exact Nat.lt_succ_self _
        · rw [List.get?_set_ne _ _ (Ne.symm hif)] at hgi
          have := h.first_lt nd2 (List.get?_mem hgi) p hp
          omega
      · intro i nd2 hgi
        by_cases hif : i = f
        · subst hif
          rw [List.get?_set_eq_of_lt _ hf] at hgi
          cases hgi
          rw [srcIdx_concat]
          simp only [if_pos rfl, List.singleton_append]
          rw [h.tr_len]
          exact ChainOk.cons (List.get?_concat_length _ _)
            (chainOk_append (h.chains _ nd hget))
        · rw [List.get?_set_ne _ _ (Ne.symm hif)] at hgi
          rw [srcIdx_concat]
          have hne : ¬((f, t, d).1 = i) := fun he => hif he.symm
          simp only [if_neg hne, List.nil_append]
          exact chainOk_append (h.chains i nd2 hgi)

lemma ginv_findOrAdd {N E : Type _} [DecidableEq N] {g : Graph N E} {tr : List (Nat × Nat × E)}
    (h : GInv g tr) (d : N) :
    GInv (Graph.findOrAdd g d).2 tr ∧ (Graph.findOrAdd g d).1.idx < (Graph.findOrAdd g d).2.nodes.length ∧
      g.nodes.length ≤ (Graph.findOrAdd g d).2.nodes.length ∧ (Graph.findOrAdd g d).2.edges = g.edges := by
  cases hfind : g.find_node_index (fun x => decide (x = d)) with
  | none =>
    have hfa : Graph.findOrAdd g d = g.add_node d := by unfold Graph.findOrAdd; rw [hfind]
    rw [hfa]
    refine ⟨ginv_add_node h d, ?_, ?_, rfl⟩
    · show g.nodes.length < (g.nodes ++ [_]).length
      simp
    · show g.nodes.length ≤ (g.nodes ++ [_]).length
      simp
  | some p =>
    have hfa : Graph.findOrAdd g d = (p, g) := by unfold Graph.findOrAdd; rw [hfind]
    rw [hfa]
    refine ⟨h, ?_, le_refl _, rfl⟩
    unfold Graph.find_node_index at hfind
    cases hf2 : g.nodes.find? (fun nd => decide (nd.data = d)) with
    | none => rw [hf2] at hfind; cases hfind
    | some nd =>
      rw [hf2] at hfind
      injection hfind with hp
      obtain ⟨i, hgi⟩ := List.mem_iff_get?.mp (List.mem_of_find?_eq_some hf2)
      have hidx := h.node_idx i nd hgi
      have hilt := (List.get?_eq_some.mp hgi).1
      have hp' : p = ⟨i⟩ := by rw [← hidx]; exact hp.symm
      show p.idx < g.nodes.length
      rw [hp']
      exact hilt

lemma ginv_add_edge_by_data {N E : Type _} [DecidableEq N] {g : Graph N E}
    {tr : List (Nat × Nat × E)} (h : GInv g tr) (a b : N) (rel : Relationship E) :
    ∃ g2 tr2, g.add_edge_by_data a b rel = Res.value g2 ∧ GInv g2 tr2 ∧
      g.nodes.length ≤ g2.nodes.length ∧ g.edges.length ≤ g2.edges.length := by
  obtain ⟨h1, hp1, hle1, he1⟩ := ginv_findOrAdd h a
  obtain ⟨h2, hp2, hle2, he2⟩ := ginv_findOrAdd h1 b
  have hp1' : (Graph.findOrAdd g a).1.idx < (Graph.findOrAdd (Graph.findOrAdd g a).2 b).2.nodes.length := by omega
  have hee : (Graph.findOrAdd (Graph.findOrAdd g a).2 b).2.edges.length = g.edges.length := by
    rw [he2, he1]
  cases rel with
  | AToB e =>
    obtain ⟨g3, heq, hinv3, hn3, hedg3⟩ := ginv_add_edge h2 hp1' hp2 e
    refine ⟨g3, _, heq, hinv3, ?_, ?_⟩
    · rw [hn3]; omega
    · rw [hedg3, hee]; omega
  | BToA e =>
    obtain ⟨g3, heq, hinv3, hn3, hedg3⟩ := ginv_add_edge h2 hp2 hp1' e
    refine ⟨g3, _, heq, hinv3, ?_, ?_⟩
    · rw [hn3]; omega
    · rw [hedg3, hee]; omega
  | BiDirectional ab ba =>
    obtain ⟨g3, heq, hinv3, hn3, hedg3⟩ := ginv_add_edge h2 hp1' hp2 ab
    obtain ⟨g4, heq4, hinv4, hn4, hedg4⟩ :=
      ginv_add_edge (f := ((g.findOrAdd a).2.findOrAdd b).1.idx)
        (t := (g.findOrAdd a).1.idx) hinv3 (by rw [hn3]; omega) (by rw [hn3]; omega) ba
    refine ⟨g4, _, ?_, hinv4, ?_, ?_⟩
    · show (Graph.add_edge _ _ _ _).bind _ = Res.value g4
      rw [heq]
      simpa [Res.bind] using heq4
    · rw [hn4, hn3]; omega
    · rw [hedg4, hedg3, hee]; omega

lemma reachable_ginv {N E : Type _} [DecidableEq N] {g : Graph N E} (h : Reachable g) :
    ∃ tr, GInv g tr := by
  induction h with
  | new => exact ⟨[], ginv_new⟩
  | add_node g d _ ih =>
    obtain ⟨tr, hinv⟩ := ih
    exact ⟨tr, ginv_add_node hinv d⟩
  | add_edge g fP tP d g2 _ hf ht heq ih =>
    obtain ⟨tr, hinv⟩ := ih
    obtain ⟨g2', heq', hinv', _, _⟩ := ginv_add_edge hinv hf ht d
    injection heq'.symm.trans heq with hh
    exact ⟨tr ++ [(fP.idx, tP.idx, d)], hh ▸ hinv'⟩
  | add_edge_by_data g a b rel g2 _ heq ih =>
    obtain ⟨tr, hinv⟩ := ih
    obtain ⟨g2', tr2, heq', hinv', _, _⟩ := ginv_add_edge_by_data hinv a b rel
    injection heq'.symm.trans heq with hh
    exact ⟨tr2, hh ▸ hinv'⟩

lemma add_node_frame {N E : Type _} (g : Graph N E) (d : N) :
    (g.add_node d).2.nodes.length = g.nodes.length + 1 ∧
    (g.add_node d).2.edges.length = g.edges.length ∧
    ∀ p : NodePtr, p.idx < g.nodes.length → (g.add_node d).2.get p = g.get p := by
  refine ⟨by simp [Graph.add_node], rfl, ?_⟩
  intro p hp
  have hsame : (g.add_node d).2.nodes.get? p.idx = g.nodes.get? p.idx :=
    List.get?_append hp
  unfold Graph.get
  rw [hsame]

lemma add_node_get_new {N E : Type _} (g : Graph N E) (d : N) :
    (g.add_node d).2.get (g.add_node d).1 = Res.value d := by
  unfold Graph.get
  have : (g.add_node d).2.nodes.get? (g.add_node d).1.idx
      = some ⟨d, ⟨g.nodes.length⟩, none⟩ := List.get?_concat_length _ _
  rw [this]

lemma add_edge_frame {N E : Type _} {g g2 : Graph N E} {fP tP : NodePtr} {d : E}
    (h : g.add_edge fP tP d = Res.value g2) :
    g2.nodes.length = g.nodes.length ∧ g2.edges.length = g.edges.length + 1 ∧
    ∀ p : NodePtr, g2.get p = g.get p := by
  unfold Graph.add_edge at h
  cases hget : g.nodes.get? fP.idx with
  | none => rw [hget] at h; cases h
  | some nd =>
    rw [hget] at h
    cases h
    have hflt := (List.get?_eq_some.mp hget).1
    refine ⟨List.length_set _ _ _, by simp, ?_⟩
    intro p
    unfold Graph.get
    by_cases hpf : p.idx = fP.idx
    · rw [hpf, List.get?_set_eq_of_lt _ hflt, hget]
    · rw [List.get?_set_ne _ _ (fun he => hpf he.symm)]

lemma findOrAdd_frame {N E : Type _} [DecidableEq N] (g : Graph N E) (d : N) :
    g.nodes.length ≤ (g.findOrAdd d).2.nodes.length ∧ (g.findOrAdd d).2.edges = g.edges ∧
    ∀ p : NodePtr, p.idx < g.nodes.length → (g.findOrAdd d).2.get p = g.get p := by
  cases hfind : g.find_node_index (fun x => decide (x = d)) with
  | none =>
    have hfa : g.findOrAdd d = g.add_node d := by unfold Graph.findOrAdd; rw [hfind]
    rw [hfa]
    obtain ⟨hn, he, hg⟩ := add_node_frame g d
    exact ⟨by omega, rfl, hg⟩
  | some p =>
    have hfa : g.findOrAdd d = (p, g) := by unfold Graph.findOrAdd; rw [hfind]
    rw [hfa]
    exact ⟨le_refl _, rfl, fun _ _ => rfl⟩

lemma add_edge_by_data_frame {N E : Type _} [DecidableEq N] {g g2 : Graph N E} {a b : N}
    {rel : Relationship E} (h : g.add_edge_by_data a b rel = Res.value g2) :
    g.nodes.length ≤ g2.nodes.length ∧ g.edges.length ≤ g2.edges.length ∧
    ∀ p : NodePtr, p.idx < g.nodes.length → g2.get p = g.get p := by
  obtain ⟨hle1, he1, hget1⟩ := findOrAdd_frame g a
  obtain ⟨hle2, he2, hget2⟩ := findOrAdd_frame (g.findOrAdd a).2 b
  have heel : ((g.findOrAdd a).2.findOrAdd b).2.edges.length = g.edges.length := by
    rw [he2, he1]
  cases rel with
  | AToB e =>
    obtain ⟨hn, he, hgets⟩ := add_edge_frame h
    refine ⟨by omega, by omega, fun p hp => ?_⟩
    rw [hgets p, hget2 p (by omega), hget1 p hp]
  | BToA e =>
    obtain ⟨hn, he, hgets⟩ := add_edge_frame h
    refine ⟨by omega, by omega, fun p hp => ?_⟩
    rw [hgets p, hget2 p (by omega), hget1 p hp]
  | BiDirectional ab ba =>
    have h' : (((g.findOrAdd a).2.findOrAdd b).2.add_edge (g.findOrAdd a).1
        ((g.findOrAdd a).2.findOrAdd b).1 ab).bind
        (fun g3 => g3.add_edge ((g.findOrAdd a).2.findOrAdd b).1 (g.findOrAdd a).1 ba)
        = Res.value g2 := h
    cases h3 : ((g.findOrAdd a).2.findOrAdd b).2.add_edge (g.findOrAdd a).1
        ((g.findOrAdd a).2.findOrAdd b).1 ab with
    | panicked => rw [h3] at h'; cases h'
    | value g3 =>
      rw [h3] at h'
      simp only [Res.bind] at h'
      obtain ⟨hn3, he3, hgets3⟩ := add_edge_frame h3
      obtain ⟨hn4, he4, hgets4⟩ := add_edge_frame h'
      refine ⟨by omega, by omega, fun p hp => ?_⟩
      rw [hgets4 p, hgets3 p, hget2 p (by omega), hget1 p hp]

lemma runOps_frame {N E : Type _} [DecidableEq N] {ops : List (GraphOp N E)}
    {g g2 : Graph N E} (h : runOps g ops = Res.value g2) :
    g.nodes.length ≤ g2.nodes.length ∧ g.edges.length ≤ g2.edges.length ∧
    ∀ p : NodePtr, p.idx < g.nodes.length → g2.get p = g.get p := by
  induction ops generalizing g with
  | nil =>
    cases h
    exact ⟨le_refl _, le_refl _, fun _ _ => rfl⟩
  | cons op rest ih =>
    cases op with
    | addNode d =>
      obtain ⟨hle, hee, hgs⟩ := ih (g := (g.add_node d).2) h
      obtain ⟨hn1, he1, hget1⟩ := add_node_frame g d
      refine ⟨by omega, by omega, fun p hp => ?_⟩
      rw [hgs p (by omega), hget1 p hp]
    | addEdge f t d =>
      simp only [runOps] at h
      cases hae : g.add_edge ⟨f⟩ ⟨t⟩ d with
      | panicked => rw [hae] at h; cases h
      | value g3 =>
        rw [hae] at h
        simp only [Res.bind] at h
        obtain ⟨hn3, he3, hget3⟩ := add_edge_frame hae
        obtain ⟨hle, hee, hgs⟩ := ih h
        refine ⟨by omega, by omega, fun p hp => ?_⟩
        rw [hgs p (by omega), hget3 p]
    | addEdgeByData a b rel =>
      simp only [runOps] at h
      cases hab : g.add_edge_by_data a b rel with
      | panicked => rw [hab] at h; cases h
      | value g3 =>
        rw [hab] at h
        simp only [Res.bind] at h
        obtain ⟨hn3, he3, hget3⟩ := add_edge_by_data_frame hab
        obtain ⟨hle, hee, hgs⟩ := ih h
        refine ⟨by omega, by omega, fun p hp => ?_⟩
        rw [hgs p (by omega), hget3 p hp]

lemma run2_ginv {N E : Type _} (ops : List (Op2 N E)) :
    ∀ (g : Graph N E) (tr : List (Nat × Nat × E)), GInv g tr →
      WF2 g.nodes.length ops = true →
      ∃ g2, run2 g ops = Res.value g2 ∧ GInv g2 (tr ++ edgeTriples ops) ∧
        g2.nodes.length = nodeCount2 g.nodes.length ops := by
  induction ops with
  | nil =>
    intro g tr hinv _
    exact ⟨g, rfl, by simpa [edgeTriples] using hinv, rfl⟩
  | cons op rest ih =>
    intro g tr hinv hwf
    cases op with
    | node d =>
      have hlen : (g.add_node d).2.nodes.length = g.nodes.length + 1 := by
        simp [Graph.add_node]
      have hwf' : WF2 ((g.add_node d).2.nodes.length) rest = true := by
        rw [hlen]
        exact hwf
      obtain ⟨g2, hrun, hinv2, hcount⟩ := ih (g.add_node d).2 tr (ginv_add_node hinv d) hwf'
      refine ⟨g2, hrun, hinv2, ?_⟩
      rw [hlen] at hcount
      exact hcount
    | edge f t d =>
      simp only [WF2, Bool.and_eq_true, decide_eq_true_eq] at hwf
      obtain ⟨⟨hf, ht⟩, hwfr⟩ := hwf
      obtain ⟨g3, hae, hinv3, hn3, he3⟩ := ginv_add_edge hinv hf ht d
      obtain ⟨g2, hrun, hinv2, hcount⟩ := ih g3 (tr ++ [(f, t, d)]) hinv3
        (by rw [hn3]; exact hwfr)
      refine ⟨g2, ?_, ?_, ?_⟩
      · show (g.add_edge ⟨f⟩ ⟨t⟩ d).bind (fun gg => run2 gg rest) = Res.value g2
        rw [hae]
        simpa [Res.bind] using hrun
      · rw [List.append_assoc, List.singleton_append] at hinv2
        exact hinv2
      · rw [hcount, hn3]
        rfl

/-- C2: the `Graph` is a correct adjacency list.  For every graph built
from `Graph::new` by a sequence of `add_node`/`add_edge` calls in which
`add_edge` is fed `NodePtr`s returned by `add_node` on the same graph
(`WF2`), and every node `n` of that graph, driving `neighbours_iter(n)` to
exhaustion yields exactly the `(to, edge_data)` pairs of the edges added
with source `n`, each exactly once, none from any other source, in
reverse insertion order (most recently added edge first) — and the
iteration never panics or diverges. -/
theorem c2_adjacency_list_correct {N E : Type} (ops : List (Op2 N E))
    (hwf : WF2 0 ops = true) (n : Nat) (hn : n < nodeCount2 0 ops) :
    ∃ g, run2 (Graph.new : Graph N E) ops = Res.value g ∧
      g.neighbours_iter ⟨n⟩ = Res.value (specNeighbours (edgeTriples ops) n) := by
  obtain ⟨g, hrun, hinv, hcount⟩ := run2_ginv ops Graph.new [] ginv_new hwf
  rw [List.nil_append] at hinv
  refine ⟨g, hrun, ?_⟩
  have hn' : n < g.nodes.length := by rw [hcount]; exact hn
  cases hget : g.nodes.get? n with
  | none =>
    have := List.get?_eq_none.mp hget
    exact absurd hn' (by omega)
  | some nd =>
    have hchain := hinv.chains n nd hget
    have hfuel : (srcIdx (edgeTriples ops) n).length ≤ g.edges.length := by
      have h1 := srcIdx_length_le (edgeTriples ops) n
      have h2 := hinv.tr_len
      omega
    have heval := chainOk_eval hchain g.edges.length hfuel
    unfold Graph.neighbours_iter
    rw [hget]
    show Graph.neighboursAux g nd.first_edge g.edges.length = _
    rw [heval, specOfChain_srcIdx hinv.tr_corr n]

theorem c2_adjacency_list_witness :
    ∃ g, run2 (Graph.new : Graph Nat Nat)
        [Op2.node 10, Op2.node 20, Op2.edge 0 1 7, Op2.edge 0 0 8] = Res.value g ∧
      g.neighbours_iter ⟨0⟩ = Res.value (specNeighbours
        (edgeTriples [Op2.node 10, Op2.node 20,
          Op2.edge 0 1 7, Op2.edge 0 0 (8 : Nat)]) 0) :=
  c2_adjacency_list_correct
    [Op2.node 10, Op2.node 20, Op2.edge 0 1 7, Op2.edge 0 0 8] rfl 0 (by decide)

/-- C4: index-in-bounds is an invariant of every graph reachable from
`Graph::new` by `add_node`, `add_edge` (with `NodePtr`s produced by
`add_node` on the same graph) and `add_edge_by_data`: every node's stored
`node_index` is its position in the node vector, every edge's `to` and
`next_edge` pointer and every node's `first_edge` pointer are in bounds;
consequently `get`, `get_mut` and `neighbours_iter` (with full iteration
of the returned `Neighbours`) never index out of bounds for a `NodePtr`
below the node count. -/
theorem c4_arena_index_invariant {N E : Type} [DecidableEq N] (g : Graph N E)
    (h : Reachable g) :
    (∀ i nd, g.nodes.get? i = some nd → nd.node_index = ⟨i⟩) ∧
    (∀ e ∈ g.edges, e.toPtr.idx < g.nodes.length) ∧
    (∀ e ∈ g.edges, ∀ p, e.next_edge = some p → p.idx < g.edges.length) ∧
    (∀ nd ∈ g.nodes, ∀ p, nd.first_edge = some p → p.idx < g.edges.length) ∧
    (∀ p : NodePtr, p.idx < g.nodes.length →
      (∃ x, g.get p = Res.value x) ∧ (∃ x, g.get_mut p = Res.value x) ∧
      (∃ l, g.neighbours_iter p = Res.value l)) := by
  obtain ⟨tr, hinv⟩ := reachable_ginv h
  refine ⟨hinv.node_idx, hinv.to_lt, hinv.next_lt, hinv.first_lt, ?_⟩
  intro p hp
  cases hget : g.nodes.get? p.idx with
  | none =>
    have := List.get?_eq_none.mp hget
    exact absurd hp (by omega)
  | some nd =>
    refine ⟨⟨nd.data, ?_⟩, ⟨nd.data, ?_⟩, ?_⟩
    · unfold Graph.get
      rw [hget]
    · unfold Graph.get_mut
      rw [hget]
    · have hchain := hinv.chains p.idx nd hget
      have hfuel : (srcIdx tr p.idx).length ≤ g.edges.length := by
        have h1 := srcIdx_length_le tr p.idx
        have h2 := hinv.tr_len
        omega
      refine ⟨specOfChain g.edges (srcIdx tr p.idx), ?_⟩
      unfold Graph.neighbours_iter
      rw [hget]
      exact chainOk_eval hchain g.edges.length hfuel

theorem c4_arena_index_witness :
    (∀ i nd, ((Graph.new : Graph Nat Nat).add_node 3).2.nodes.get? i = some nd →
      nd.node_index = ⟨i⟩) ∧
    (∀ e ∈ ((Graph.new : Graph Nat Nat).add_node 3).2.edges,
      e.toPtr.idx < ((Graph.new : Graph Nat Nat).add_node 3).2.nodes.length) ∧
    (∀ e ∈ ((Graph.new : Graph Nat Nat).add_node 3).2.edges, ∀ p, e.next_edge = some p →
      p.idx < ((Graph.new : Graph Nat Nat).add_node 3).2.edges.length) ∧
    (∀ nd ∈ ((Graph.new : Graph Nat Nat).add_node 3).2.nodes, ∀ p,
      nd.first_edge = some p →
      p.idx < ((Graph.new : Graph Nat Nat).add_node 3).2.edges.length) ∧
    (∀ p : NodePtr, p.idx < ((Graph.new : Graph Nat Nat).add_node 3).2.nodes.length →
      (∃ x, ((Graph.new : Graph Nat Nat).add_node 3).2.get p = Res.value x) ∧
      (∃ x, ((Graph.new : Graph Nat Nat).add_node 3).2.get_mut p = Res.value x) ∧
      (∃ l, ((Graph.new : Graph Nat Nat).add_node 3).2.neighbours_iter p = Res.value l)) :=
  c4_arena_index_invariant ((Graph.new : Graph Nat Nat).add_node 3).2
    (Reachable.add_node Graph.new 3 Reachable.new)

/-- C5: the `Graph` supports no removal.  After `add_node` returns a
pointer `p` for data `d`, any further sequence of `add_node`, `add_edge`
and `add_edge_by_data` calls that completes without panicking never
decreases the node or edge count, `get p` still returns exactly `d`, and
`get` of every node that existed before is unchanged. -/
theorem c5_no_removal {N E : Type} [DecidableEq N] (g : Graph N E) (d : N)
    (ops : List (GraphOp N E)) (g2 : Graph N E)
    (h : runOps (g.add_node d).2 ops = Res.value g2) :
    (g.add_node d).2.nodes.length ≤ g2.nodes.length ∧
    (g.add_node d).2.edges.length ≤ g2.edges.length ∧
    g2.get (g.add_node d).1 = Res.value d ∧
    ∀ p : NodePtr, p.idx < g.nodes.length → g2.get p = g.get p := by
  obtain ⟨hle, hee, hgs⟩ := runOps_frame h
  obtain ⟨hn1, he1, hget1⟩ := add_node_frame g d
  refine ⟨hle, hee, ?_, fun p hp => ?_⟩
  · rw [hgs (g.add_node d).1 (by simp [Graph.add_node]), add_node_get_new]
  · rw [hgs p (by omega), hget1 p hp]

theorem c5_no_removal_witness :
    ((Graph.new : Graph Nat Nat).add_node 5).2.nodes.length ≤
      (Graph.mk [⟨5, ⟨0⟩, some ⟨0⟩⟩, ⟨1, ⟨1⟩, none⟩] [⟨7, ⟨1⟩, none⟩]).nodes.length ∧
    ((Graph.new : Graph Nat Nat).add_node 5).2.edges.length ≤
      (Graph.mk [⟨5, ⟨0⟩, some ⟨0⟩⟩, ⟨1, ⟨1⟩, none⟩] [⟨7, ⟨1⟩, none⟩]).edges.length ∧
    (Graph.mk [⟨5, ⟨0⟩, some ⟨0⟩⟩, ⟨1, ⟨1⟩, none⟩]
        [⟨7, ⟨1⟩, none⟩]).get ((Graph.new : Graph Nat Nat).add_node 5).1 = Res.value 5 ∧
    ∀ p : NodePtr, p.idx < (Graph.new : Graph Nat Nat).nodes.length →
      (Graph.mk [⟨5, ⟨0⟩, some ⟨0⟩⟩, ⟨1, ⟨1⟩, none⟩] [⟨7, ⟨1⟩, none⟩]).get p
        = (Graph.new : Graph Nat Nat).get p :=
  c5_no_removal Graph.new 5 [GraphOp.addNode 1, GraphOp.addEdge 0 1 7]
    (Graph.mk [⟨5, ⟨0⟩, some ⟨0⟩⟩, ⟨1, ⟨1⟩, none⟩] [⟨7, ⟨1⟩, none⟩]) rfl
